import Mathlib

/-!
Shallow embedding of the `endlessh-rs` repository (files `src/endlessh.rs`,
`src/metrics.rs`) and proofs about it.

Modelling conventions:
* `Instant` and `Duration` are `Nat` (nanoseconds).  `Instant::duration_since`
  and `Duration::as_secs` become truncated `Nat` subtraction and division by
  `1000000000`.
* The mio / socket layer is replaced by oracles: the OS accept backlog is a
  list carried in the state, the outcome of each non-blocking socket write is
  supplied by an oracle, and the random generator's output for one wake-up is
  a parameter.
* The assertions in the source (`time went backwards`, accept failure) become
  `Option` / explicit `fatal` results.
-/

namespace EndlesshRs

/-- One nanosecond-resolution point in time (`std::time::Instant`). -/
abbrev Instant := Nat

/-- A nanosecond-resolution span of time (`std::time::Duration`). -/
abbrev Dur := Nat

/-- `Duration::as_secs`. -/
def Dur.asSecs (d : Dur) : Nat := d / 1000000000

/-- `const SSH_LINE_BUFFER_SIZE: usize = 256;` -/
def SSH_LINE_BUFFER_SIZE : Nat := 256

/-- `enum NewLine { LF, CRLF }` from `endlessh.rs`. -/
inductive NewLine where
  | LF
  | CRLF
deriving DecidableEq

/-- `NewLine::get_data`: the terminator bytes. -/
def NewLine.get_data : NewLine → List Nat
  | .LF => [10]
  | .CRLF => [13, 10]

/-- `struct EndlesshOptions` from `endlessh.rs`. -/
structure EndlesshOptions where
  max_clients : Nat
  banner_line_length : Nat
  message_delay : Dur
  newline : NewLine
deriving DecidableEq

/-- `struct EndlesshStats` from `endlessh.rs`. -/
structure EndlesshStats where
  started_time : Instant
  last_known_time : Instant
  connections_opened : Nat
  connections_closed : Nat
  bytes_generated : Nat
  bytes_sent : Nat
  trapped_time : Dur
deriving DecidableEq

/-- `EndlesshStats::default()` (with `now` the Instant sampled at creation). -/
def EndlesshStats.default (now : Instant) : EndlesshStats where
  started_time := now
  last_known_time := now
  connections_opened := 0
  connections_closed := 0
  bytes_generated := 0
  bytes_sent := 0
  trapped_time := 0

/-- The `Display` implementation for `EndlesshStats`: the metrics body. -/
def statsDisplay (s : EndlesshStats) : String :=
  "endlessh_ssh_uptime_seconds: " ++
    toString (Dur.asSecs (s.last_known_time - s.started_time)) ++ "\n" ++
  "endlessh_ssh_connections_opened: " ++ toString s.connections_opened ++ "\n" ++
  "endlessh_ssh_connections_closed: " ++ toString s.connections_closed ++ "\n" ++
  "endlessh_ssh_bytes_generated: " ++ toString s.bytes_generated ++ "\n" ++
  "endlessh_ssh_bytes_sent: " ++ toString s.bytes_sent ++ "\n" ++
  "endlessh_ssh_trapped_time_seconds: " ++ toString (Dur.asSecs s.trapped_time) ++ "\n"

/-- `struct EndlesshClient`: the `stream` handle is modelled by an abstract
identifier `id`, used by the send-outcome oracle and the send log. -/
structure EndlesshClient where
  id : Nat
  connected_time : Instant
  last_send_time : Option Instant
deriving DecidableEq

/-- `struct EndlesshServer`.  The mio listener is modelled by the
`listener_accept_available` flag plus `pending`, the OS accept backlog
(identifiers of connections waiting to be accepted, oldest first).  Only the
first `banner_line_length` bytes of `line_buffer` are ever overwritten and
only the first `banner_line_length + newline` bytes are ever read, so the
buffer is modelled by its banner region `line_banner`. -/
structure ServerState where
  listener_accept_available : Bool
  line_banner : List Nat
  clients : List EndlesshClient
  stats : EndlesshStats
  options : EndlesshOptions
  pending : List Nat
deriving DecidableEq

/-- `EndlesshServer::create` (the `assert!` on the buffer size is modelled by
returning `none` on violation). -/
def ServerState.create (options : EndlesshOptions) (now : Instant) : Option ServerState :=
  if options.banner_line_length + options.newline.get_data.length ≤ SSH_LINE_BUFFER_SIZE then
    some
      { listener_accept_available := false
        line_banner := List.replicate options.banner_line_length 0
        clients := []
        stats := EndlesshStats.default now
        options := options
        pending := [] }
  else none

/-- The accept loop of `EndlesshServer::accept_new_connections`, with an
explicit structural bound on its iteration count (each iteration either
consumes one backlog entry or stops). -/
def accept_fuel (now : Instant) : Nat → ServerState → ServerState
  | 0, s => s
  | fuel + 1, s =>
    if s.listener_accept_available = true ∧ s.clients.length < s.options.max_clients then
      match s.pending with
      | [] => { s with listener_accept_available := false }
      | cid :: rest =>
        accept_fuel now fuel
          { s with
            clients := s.clients ++ [⟨cid, now, none⟩]
            pending := rest
            stats := { s.stats with connections_opened := s.stats.connections_opened + 1 } }
    else s

/-- `EndlesshServer::accept_new_connections`: drain the backlog while the
listener is marked accept-available and there is capacity.  An empty backlog
models `accept` returning `WouldBlock`.  `pending.length + 1` iterations
always suffice, so the bounded loop is the source's unbounded one. -/
def accept_new_connections (now : Instant) (s : ServerState) : ServerState :=
  accept_fuel now (s.pending.length + 1) s

/-- The result of one non-blocking `stream.write` on a tarpit client, as
reported by the environment. -/
inductive SendOutcome where
  | ok (n : Nat)
  | wouldBlock
  | err
deriving DecidableEq

/-- `EndlesshServer::send_line`.  `sendRes` is the oracle giving the write
outcome for each client's stream. -/
def send_line (sendRes : Nat → SendOutcome) (now : Instant) (stats : EndlesshStats)
    (c : EndlesshClient) : EndlesshStats × Option EndlesshClient :=
  match sendRes c.id with
  | .ok 0 => (stats, none)
  | .ok (n + 1) =>
    ({ stats with
        bytes_sent := stats.bytes_sent + (n + 1)
        trapped_time := stats.trapped_time + (now - (c.last_send_time.getD c.connected_time)) },
      some { c with last_send_time := some now })
  | .wouldBlock => (stats, some c)
  | .err => (stats, none)

/-- The body of `handle_wakeup`'s due-client case: attempt the send, requeue
the client at the back on success or would-block, and on a drop opportunistically
accept replacement connections. -/
def handle_due_client (sendRes : Nat → SendOutcome) (now : Instant) (s : ServerState)
    (c : EndlesshClient) : ServerState :=
  match send_line sendRes now s.stats c with
  | (st, some c2) => { s with stats := st, clients := s.clients ++ [c2] }
  | (st, none) => accept_new_connections now { s with stats := st }

/-- `(last_send + message_delay).checked_duration_since(now)`: `some` with the
remaining wait when the client is not yet due, `none` when it must be sent now
(also when it has never been sent a line). -/
def clientWait (delay : Dur) (now : Instant) (c : EndlesshClient) : Option Dur :=
  match c.last_send_time with
  | none => none
  | some last => if now ≤ last + delay then some (last + delay - now) else none

/-- One attempted banner write, as recorded by the model. -/
structure SendRecord where
  clientId : Nat
  payload : List Nat
deriving DecidableEq

/-- Lazy banner generation: on the first due client of a call, overwrite the
banner region with the random bytes and count them as generated. -/
def applyGeneration (randBytes : List Nat) (generated : Bool) (s : ServerState) : ServerState :=
  if generated then s
  else
    { s with
      line_banner := randBytes
      stats := { s.stats with
        bytes_generated := s.stats.bytes_generated + s.options.banner_line_length } }

/-- Result of a call to `handle_wakeup`.  `fatal` models the failed
`time went backwards` assertion; `incomplete` is the fuel-exhaustion artefact
of the model (the source loop has no intrinsic bound when writes keep
would-blocking on never-served clients). -/
inductive WakeupResult where
  | fatal
  | incomplete
  | done (s : ServerState) (ret : Option Dur) (log : List SendRecord)
deriving DecidableEq

/-- The FIFO scan of `handle_wakeup`: pop clients, requeue the first not-yet-due
one and return its remaining wait, send to every due one (generating the banner
at most once, before the first send). -/
def wakeup_loop (sendRes : Nat → SendOutcome) (randBytes : List Nat) (now : Instant) :
    Nat → ServerState → Bool → List SendRecord → WakeupResult
  | 0, _, _, _ => .incomplete
  | fuel + 1, s, generated, log =>
    match s.clients with
    | [] => .done s none log
    | c :: rest =>
      match clientWait s.options.message_delay now c with
      | some w => .done { s with clients := rest ++ [c] } (some w) log
      | none =>
        let s1 := applyGeneration randBytes generated { s with clients := rest }
        wakeup_loop sendRes randBytes now fuel (handle_due_client sendRes now s1 c) true
          (log ++ [⟨c.id, s1.line_banner ++ s1.options.newline.get_data⟩])

/-- `EndlesshServer::handle_wakeup`. -/
def handle_wakeup (sendRes : Nat → SendOutcome) (randBytes : List Nat) (now : Instant)
    (fuel : Nat) (s : ServerState) : WakeupResult :=
  if now < s.stats.last_known_time then .fatal
  else
    wakeup_loop sendRes randBytes now fuel
      { s with stats := { s.stats with last_known_time := now } } false []

/-- `EndlesshServer::try_handle_event`.  `none` models the failed
`time went backwards` assertion; otherwise the updated server and the returned
boolean. -/
def try_handle_event (isListenerEvent : Bool) (now : Instant) (s : ServerState) :
    Option (ServerState × Bool) :=
  if now < s.stats.last_known_time then none
  else
    let s2 := { s with stats := { s.stats with last_known_time := now } }
    if isListenerEvent then
      some (accept_new_connections now { s2 with listener_accept_available := true }, true)
    else some (s2, false)

/-! ### The event-loop boundary: traces of scheduler operations -/

/-- One interaction of the event loop (or the environment) with the scheduler:
connections arriving in the OS backlog, a readiness event, or a wake-up. -/
inductive EOp where
  | arrive (conns : List Nat)
  | event (isListenerEvent : Bool) (now : Instant)
  | wakeup (sendRes : Nat → SendOutcome) (randBytes : List Nat) (fuel : Nat) (now : Instant)

/-- Apply one operation; `none` when the call was fatal (or, for a wake-up,
when the model's fuel ran out). -/
def stepOp (s : ServerState) : EOp → Option ServerState
  | .arrive conns => some { s with pending := s.pending ++ conns }
  | .event isL now =>
    match try_handle_event isL now s with
    | some (s2, _) => some s2
    | none => none
  | .wakeup sendRes randBytes fuel now =>
    match handle_wakeup sendRes randBytes now fuel s with
    | .done s2 _ _ => some s2
    | _ => none

/-- Run a list of operations from a state. -/
def runOps : ServerState → List EOp → Option ServerState
  | s, [] => some s
  | s, op :: rest =>
    match stepOp s op with
    | some s2 => runOps s2 rest
    | none => none

/-! ### Concrete example states used by witnesses and counterexamples -/

/-- Example options: 4 clients max, 3-byte banner, delay 10, LF terminator. -/
def exOpts : EndlesshOptions := ⟨4, 3, 10, .LF⟩

/-- A queue whose front client was last served at time 2 (not yet due at
time 5 under delay 10). -/
def c3sBefore : ServerState :=
  { listener_accept_available := false
    line_banner := [0, 0, 0]
    clients := [⟨1, 0, some 2⟩]
    stats := EndlesshStats.default 0
    options := exOpts
    pending := [] }

/-- A not-yet-due client in front of a never-served client. -/
def c1sBefore : ServerState :=
  { listener_accept_available := false
    line_banner := [0, 0, 0]
    clients := [⟨1, 0, some 2⟩, ⟨2, 0, none⟩]
    stats := EndlesshStats.default 0
    options := exOpts
    pending := [] }

/-- The state `c1sBefore` reaches on `handle_wakeup` at time 5. -/
def c1sAfter : ServerState :=
  { c1sBefore with
    clients := [⟨2, 0, none⟩, ⟨1, 0, some 2⟩]
    stats := { c1sBefore.stats with last_known_time := 5 } }

/-- A never-served client in front of a not-yet-due client. -/
def c1wBefore : ServerState :=
  { listener_accept_available := false
    line_banner := [0, 0, 0]
    clients := [⟨1, 5, none⟩, ⟨2, 0, some 2⟩]
    stats := EndlesshStats.default 0
    options := exOpts
    pending := [] }

/-- A queue of two never-served clients. -/
def c8sBefore : ServerState :=
  { listener_accept_available := false
    line_banner := [0, 0, 0]
    clients := [⟨1, 0, none⟩, ⟨2, 0, none⟩]
    stats := EndlesshStats.default 0
    options := exOpts
    pending := [] }

/-- `c3sBefore` after its clock has advanced to 5. -/
def c3sAfterTime : ServerState :=
  { c3sBefore with stats := { c3sBefore.stats with last_known_time := 5 } }

/-- The state `create ⟨2, 3, 10, LF⟩ 0` produces. -/
def c6CreateState : ServerState :=
  { listener_accept_available := false
    line_banner := [0, 0, 0]
    clients := []
    stats := EndlesshStats.default 0
    options := ⟨2, 3, 10, .LF⟩
    pending := [] }

/-- `c6CreateState` after three arrivals, one accept event (two accepted, one
deferred) and one wake-up serving both clients. -/
def c6RunResult : ServerState :=
  { listener_accept_available := true
    line_banner := [65, 66, 67]
    clients := [⟨12, 4, some 5⟩, ⟨11, 4, some 5⟩]
    stats :=
      { started_time := 0
        last_known_time := 5
        connections_opened := 2
        connections_closed := 0
        bytes_generated := 3
        bytes_sent := 8
        trapped_time := 2 }
    options := ⟨2, 3, 10, .LF⟩
    pending := [13] }

/-- A scheduler whose queue is at `max_clients` with a backlog still pending. -/
def c6FullState : ServerState :=
  { listener_accept_available := true
    line_banner := [0, 0, 0]
    clients := [⟨1, 0, none⟩, ⟨2, 0, none⟩]
    stats := EndlesshStats.default 0
    options := ⟨2, 3, 10, .LF⟩
    pending := [99] }

/-! ## The metrics responder (`metrics.rs`) -/

namespace Metrics

/-- `const METRIC_HTTP_REQUEST_MAX_SIZE: usize = 8192;` -/
def METRIC_HTTP_REQUEST_MAX_SIZE : Nat := 8192

/-- The buffer size of the generic `std::io::copy` path. -/
def DEFAULT_BUF_SIZE : Nat := 8192

/-- `HTTP_404_RESPONSE` from `metrics.rs`. -/
def HTTP_404_RESPONSE : String := "HTTP/1.1 404 Not Found\r\n\r\n"

/-- `HTTP_405_RESPONSE` from `metrics.rs`. -/
def HTTP_405_RESPONSE : String := "HTTP/1.1 405 Method Not Allowed\r\n\r\n"

/-- `generate_http_response` from `metrics.rs`.  The body rendered from the
stats is ASCII, so its character count and its byte count (`body.len()` in the
source) agree. -/
def generate_http_response (body : String) : String :=
  "HTTP/1.1 200 OK\r\n" ++
  "Content-Type: application/openmetrics-text; version=1.0.0; charset=utf-8\r\n" ++
  "Content-Length: " ++ toString body.length ++ "\r\n\r\n" ++ body

/-- Outcome of parsing the bytes received so far as an HTTP request head. -/
inductive ParseOutcome where
  | completeHead (method : Option String) (path : Option String)
  | needMoreData
  | badRequest
deriving DecidableEq

/-- Whether the blank line ending a request head has been received. -/
def hasHeadEnd : List Char → Bool
  | '\r' :: '\n' :: '\r' :: '\n' :: _ => true
  | _ :: rest => hasHeadEnd rest
  | [] => false

/-- Split a character list on a separator character. -/
def splitOnChar (sep : Char) : List Char → List (List Char)
  | [] => [[]]
  | c :: rest =>
    match splitOnChar sep rest with
    | [] => [[]]
    | g :: gs => if c = sep then [] :: g :: gs else (c :: g) :: gs

/-- Modelled from the spec: the external HTTP head parser (the `httparse`
crate, outside this repository, specified at the wire-protocol boundary).  A
head is complete once the blank line ending the headers has been received;
the method and the path are the first two space-separated tokens of the
request line; with fewer bytes the parse is partial (`needMoreData`).  The
source also drops the connection on a parse error; the modelled parser never
reports one, matching the spec's well-formed inputs. -/
def parseHead (buf : String) : ParseOutcome :=
  if hasHeadEnd buf.toList then
    let toks := splitOnChar ' ' (buf.toList.takeWhile (fun c => c ≠ '\r'))
    .completeHead (toks[0]?.map List.asString) (toks[1]?.map List.asString)
  else .needMoreData

/-- The dispatch on the parsed method and path in `MetricServer::handle_client`. -/
def routeRequest (method path : Option String) (body : String) : String :=
  if path = some "/metrics" then
    if method = some "GET" then generate_http_response body
    else HTTP_405_RESPONSE
  else HTTP_404_RESPONSE

/-- `enum MetricRequestStatus`.  `ReadingRequest` keeps the bytes received so
far (the source's fixed buffer plus fill position); `WritingResponse` keeps
the part of the response byte source the cursor has not yet passed. -/
inductive MetricRequestStatus where
  | readingRequest (buffer : String)
  | writingResponse (remaining : List Char)
deriving DecidableEq

/-- `struct HttpClient` (the stream handle is implicit in the event that
delivers this client's I/O). -/
structure HttpClient where
  connected_time : Instant
  connection_status : MetricRequestStatus
deriving DecidableEq

/-- One non-blocking `stream.write` outcome supplied by the environment. -/
inductive WriteStep where
  | ok (n : Nat)
  | wouldBlock
  | errOther
deriving DecidableEq

/-- How `write_all` can fail. -/
inductive WriteFailure where
  | writeZero
  | wouldBlock
  | other
deriving DecidableEq

/-- `Write::write_all` on one chunk: returns the bytes actually transmitted
(a prefix of the chunk), the failure if any, and the unconsumed write
outcomes.  An exhausted oracle behaves as would-block. -/
def write_all : List Char → List WriteStep → List Char × Option WriteFailure × List WriteStep
  | [], steps => ([], none, steps)
  | _ :: _, [] => ([], some .wouldBlock, [])
  | chunk, .ok 0 :: rest =>
    match chunk with
    | [] => ([], none, .ok 0 :: rest)
    | _ :: _ => ([], some .writeZero, rest)
  | chunk, .ok (n + 1) :: rest =>
    let k := min (n + 1) chunk.length
    let (sent, res, rest2) := write_all (chunk.drop k) rest
    (chunk.take k ++ sent, res, rest2)
  | _ :: _, .wouldBlock :: rest => ([], some .wouldBlock, rest)
  | _ :: _, .errOther :: rest => ([], some .other, rest)

/-- Result of one `std::io::copy` call. -/
inductive CopyResult where
  | ok (total : Nat)
  | errWouldBlock
  | errOther
deriving DecidableEq

/-- The generic (`Box<dyn Read>`, no `BufRead` specialization) `io::copy`
loop from the response source to the stream: read up to `DEFAULT_BUF_SIZE`
bytes from the source into a stack buffer — advancing the source past them —
then `write_all` them; on any write failure the error is returned and the
bytes already taken from the source are discarded with it.  Returns the bytes
transmitted, the result, and what remains of the source.  The structural
bound is one iteration per source byte plus one. -/
def copy_fuel : Nat → List Char → List WriteStep → Nat → List Char × CopyResult × List Char
  | 0, remaining, _, _ => ([], .errOther, remaining)
  | fuel + 1, remaining, steps, total =>
    let chunk := remaining.take DEFAULT_BUF_SIZE
    if chunk.isEmpty then ([], .ok total, remaining)
    else
      let rem2 := remaining.drop DEFAULT_BUF_SIZE
      match write_all chunk steps with
      | (sent, none, steps2) =>
        let (sent2, res, rem3) := copy_fuel fuel rem2 steps2 (total + chunk.length)
        (sent ++ sent2, res, rem3)
      | (sent, some .wouldBlock, _) => (sent, .errWouldBlock, rem2)
      | (sent, some _, _) => (sent, .errOther, rem2)

/-- `copy(&mut to_write, &mut client.stream)` in the `WritingResponse` arm. -/
def copy_drain (remaining : List Char) (steps : List WriteStep) :
    List Char × CopyResult × List Char :=
  copy_fuel (remaining.length + 1) remaining steps 0

/-- How one non-blocking read sequence ends, as supplied by the environment. -/
inductive ReadEnd where
  | eof
  | wouldBlock
  | errOther
deriving DecidableEq

/-- The I/O the client's stream delivers during one `handle_client` call:
bytes readable before `readEnd` is reported, and the outcomes of successive
writes. -/
structure ClientIO where
  readData : String
  readEnd : ReadEnd
  writeSteps : List WriteStep
deriving DecidableEq

/-- `copy(&mut client.stream, cursor)` in the `ReadingRequest` arm: append
the delivered bytes at the fill position.  Overflowing the fixed buffer makes
the cursor reject bytes, which `write_all` turns into a non-would-block error
(`WriteZero`). -/
def read_into_buffer (buffer data : String) (tend : ReadEnd) : CopyResult × String :=
  if buffer.length + data.length ≤ METRIC_HTTP_REQUEST_MAX_SIZE then
    match tend with
    | .eof => (.ok data.length, buffer ++ data)
    | .wouldBlock => (.errWouldBlock, buffer ++ data)
    | .errOther => (.errOther, buffer ++ data)
  else (.errOther, buffer)

/-- The tail of the `ReadingRequest` arm of `handle_client`, after the copy
succeeded or would-blocked: parse, and on a complete head pick the response
and switch to `WritingResponse` (re-registering for write-readiness). -/
def handle_head (buf2 body : String) (c : HttpClient) : Option HttpClient × List Char :=
  match parseHead buf2 with
  | .needMoreData => (some { c with connection_status := .readingRequest buf2 }, [])
  | .badRequest => (none, [])
  | .completeHead m p =>
    (some { c with connection_status := .writingResponse (routeRequest m p body).toList }, [])

/-- `MetricServer::handle_client`: one state-machine step for one client.
Returns the client if it stays alive, and the response bytes actually
transmitted to the peer during this call. -/
def handle_client (io : ClientIO) (body : String) (c : HttpClient) :
    Option HttpClient × List Char :=
  match c.connection_status with
  | .readingRequest buffer =>
    match read_into_buffer buffer io.readData io.readEnd with
    | (.ok 0, _) => (none, [])
    | (.ok (_ + 1), buf2) => handle_head buf2 body c
    | (.errWouldBlock, buf2) => handle_head buf2 body c
    | (.errOther, _) => (none, [])
  | .writingResponse remaining =>
    match copy_drain remaining io.writeSteps with
    | (sent, .ok _, _) => (none, sent)
    | (sent, .errWouldBlock, rem2) =>
      (some { c with connection_status := .writingResponse rem2 }, sent)
    | (sent, .errOther, _) => (none, sent)

/-- Feed a sequence of I/O events to one accepted connection, collecting the
bytes it receives.  Once the connection is closed it is deregistered, so no
further event reaches it. -/
def runClient (body : String) : Option HttpClient → List ClientIO → Option HttpClient × List Char
  | c, [] => (c, [])
  | none, _ :: _ => (none, [])
  | some cl, io :: rest =>
    let (c2, sent) := handle_client io body cl
    let (c3, sent2) := runClient body c2 rest
    (c3, sent ++ sent2)

/-- `struct MetricServer`: the token pool, the live connections (modelled as
an association list standing for the `HashMap`), and the OS backlog of
inbound connections (a count: metric connections carry no identity). -/
structure MetricServer where
  listener_accept_available : Bool
  available_connections : List Nat
  current_connections : List (Nat × HttpClient)
  pending : Nat
deriving DecidableEq

/-- The accept loop of `MetricServer::try_accept_new_connections`, with an
explicit structural bound (each iteration consumes one backlog entry or
stops).  Accepting pops the front token and registers a fresh
`ReadingRequest` client under it; an empty backlog is `WouldBlock`. -/
def m_accept_fuel (now : Instant) : Nat → MetricServer → MetricServer
  | 0, ms => ms
  | fuel + 1, ms =>
    if ms.listener_accept_available = true ∧ ¬ ms.available_connections.isEmpty then
      match ms.pending with
      | 0 => { ms with listener_accept_available := false }
      | np + 1 =>
        match ms.available_connections with
        | [] => ms
        | t :: ts =>
          m_accept_fuel now fuel
            { ms with
              pending := np
              available_connections := ts
              current_connections := (t, ⟨now, .readingRequest ""⟩) :: ms.current_connections }
    else ms

/-- `MetricServer::try_accept_new_connections`. -/
def try_accept_new_connections (now : Instant) (ms : MetricServer) : MetricServer :=
  m_accept_fuel now (ms.pending + 1) ms

/-- `HashMap::remove_entry` on the association list: the removed client (if
the token is tracked) and the remaining entries. -/
def removeToken (t : Nat) : List (Nat × HttpClient) → Option HttpClient × List (Nat × HttpClient)
  | [] => (none, [])
  | (k, c) :: rest =>
    if k = t then (some c, rest)
    else
      let (r, rest2) := removeToken t rest
      (r, (k, c) :: rest2)

/-- A readiness event delivered to the metrics responder. -/
inductive MEvent where
  | listener
  | client (t : Nat) (io : ClientIO)

/-- `MetricServer::try_handle_event`: a listener event marks accept-available
and admits pending connections; an event for a tracked token removes that
client, runs one `handle_client` step, reinserts it if alive or recycles its
token, then tries to accept again; other events are not handled (`false`). -/
def m_try_handle_event (now : Instant) (ev : MEvent) (body : String) (ms : MetricServer) :
    MetricServer × Bool :=
  match ev with
  | .listener =>
    (try_accept_new_connections now { ms with listener_accept_available := true }, true)
  | .client t io =>
    match removeToken t ms.current_connections with
    | (none, _) => (ms, false)
    | (some cl, current2) =>
      let ms2 :=
        match handle_client io body cl with
        | (some cl2, _) => { ms with current_connections := (t, cl2) :: current2 }
        | (none, _) =>
          { ms with
            current_connections := current2
            available_connections := ms.available_connections ++ [t] }
      (try_accept_new_connections now ms2, true)

/-- One interaction of the environment with the metrics responder. -/
inductive MOp where
  | marrive (n : Nat)
  | mevent (now : Instant) (ev : MEvent) (body : String)

/-- Apply one operation. -/
def mstep (ms : MetricServer) : MOp → MetricServer
  | .marrive n => { ms with pending := ms.pending + n }
  | .mevent now ev body => (m_try_handle_event now ev body ms).1

/-- Run a list of operations. -/
def mrun : MetricServer → List MOp → MetricServer
  | ms, [] => ms
  | ms, op :: rest => mrun (mstep ms op) rest

/-- `MetricServer::create` with `client_token_range = lo..lo+n`: all `n`
tokens available, no live connection. -/
def MetricServer.create (lo n : Nat) : MetricServer :=
  { listener_accept_available := false
    available_connections := List.range' lo n
    current_connections := []
    pending := 0 }

/-- The tokens currently owned by the pool or by a live connection. -/
def tokensOf (ms : MetricServer) : List Nat :=
  ms.available_connections ++ ms.current_connections.map Prod.fst

/-- Stats sample used by concrete metrics runs. -/
def c2Stats : EndlesshStats :=
  { started_time := 0
    last_known_time := 5000000000
    connections_opened := 3
    connections_closed := 0
    bytes_generated := 100
    bytes_sent := 50
    trapped_time := 2000000000 }

/-- A `GET /metrics` request head, sent by a client that then stays open. -/
def c2Request : String := "GET /metrics HTTP/1.1\r\n\r\n"

end Metrics

/-! ### Structural lemmas about `accept_new_connections` -/


theorem accept_eq_stop (now : Instant) (s : ServerState)
    (hguard : ¬ (s.listener_accept_available = true ∧ s.clients.length < s.options.max_clients)) :
    accept_new_connections now s = s := by
  rw [accept_new_connections, accept_fuel, if_neg hguard]

theorem accept_eq_nil (now : Instant) (s : ServerState)
    (hguard : s.listener_accept_available = true ∧ s.clients.length < s.options.max_clients)
    (hp : s.pending = []) :
    accept_new_connections now s = { s with listener_accept_available := false } := by
  rw [accept_new_connections, accept_fuel, if_pos hguard]
  split
  · rfl
  · simp_all

theorem accept_eq_cons (now : Instant) (s : ServerState) (cid : Nat) (rest : List Nat)
    (hguard : s.listener_accept_available = true ∧ s.clients.length < s.options.max_clients)
    (hp : s.pending = cid :: rest) :
    accept_new_connections now s =
      accept_new_connections now
        { s with
          clients := s.clients ++ [⟨cid, now, none⟩]
          pending := rest
          stats := { s.stats with connections_opened := s.stats.connections_opened + 1 } } := by
  conv_lhs => rw [accept_new_connections, accept_fuel, if_pos hguard]
  split
  · simp_all
  · rename_i cid2 rest2 hp2
    rw [hp] at hp2
    cases hp2
    rw [accept_new_connections]
    simp [hp]

theorem accept_spec (now : Instant) (s : ServerState) :
    ∃ (newcs : List EndlesshClient) (p2 : List Nat) (b : Bool),
      accept_new_connections now s =
        { s with
          clients := s.clients ++ newcs
          pending := p2
          listener_accept_available := b
          stats := { s.stats with
            connections_opened := s.stats.connections_opened + newcs.length } } ∧
      (∀ c ∈ newcs, c.last_send_time = none) ∧
      (∀ M, s.clients.length ≤ M → s.options.max_clients ≤ M →
        s.clients.length + newcs.length ≤ M) := by
  suffices H : ∀ (n : Nat) (s : ServerState), s.pending.length = n →
      ∃ (newcs : List EndlesshClient) (p2 : List Nat) (b : Bool),
        accept_new_connections now s =
          { s with
            clients := s.clients ++ newcs
            pending := p2
            listener_accept_available := b
            stats := { s.stats with
              connections_opened := s.stats.connections_opened + newcs.length } } ∧
        (∀ c ∈ newcs, c.last_send_time = none) ∧
        (∀ M, s.clients.length ≤ M → s.options.max_clients ≤ M →
          s.clients.length + newcs.length ≤ M) by
    exact H s.pending.length s rfl
  intro n
  induction n using Nat.strong_induction_on with
  | _ n ih =>
    intro s hn
    by_cases hguard : s.listener_accept_available = true ∧ s.clients.length < s.options.max_clients
    · cases hp : s.pending with
      | nil =>
        refine ⟨[], s.pending, false, ?_, by simp, ?_⟩
        · rw [accept_eq_nil now s hguard hp]
          simp [hp]
        · intro M h1 _h2
          simpa using h1
      | cons cid rest =>
        rw [accept_eq_cons now s cid rest hguard hp]
        have hlen : rest.length < n := by
          subst hn; rw [hp]; simp
        obtain ⟨newcs2, p2, b, heq, hfresh, hbound⟩ := ih rest.length hlen
          { s with
            clients := s.clients ++ [⟨cid, now, none⟩]
            pending := rest
            stats := { s.stats with connections_opened := s.stats.connections_opened + 1 } }
          rfl
        refine ⟨⟨cid, now, none⟩ :: newcs2, p2, b, ?_, ?_, ?_⟩
        · rw [heq]
          simp [ServerState.mk.injEq, EndlesshStats.mk.injEq]
          omega
        · intro c hc
          rcases List.mem_cons.mp hc with h | h
          · rw [h]
          · exact hfresh c h
        · intro M hM hMax
          have h2 := hbound M (by simp; omega) (by simpa using hMax)
          simp at h2 ⊢
          omega
    · refine ⟨[], s.pending, s.listener_accept_available, ?_, by simp, ?_⟩
      · rw [accept_eq_stop now s hguard]
        simp
      · intro M h1 _h2
        simpa using h1

/-! ### Structural lemmas about one due-client step -/


theorem handle_due_spec (sendRes : Nat → SendOutcome) (now : Instant) (s : ServerState)
    (c : EndlesshClient) :
    ∃ ext : List EndlesshClient,
      (handle_due_client sendRes now s c).clients = s.clients ++ ext ∧
      (handle_due_client sendRes now s c).options = s.options ∧
      (handle_due_client sendRes now s c).line_banner = s.line_banner ∧
      (handle_due_client sendRes now s c).stats.last_known_time = s.stats.last_known_time ∧
      (handle_due_client sendRes now s c).stats.connections_closed = s.stats.connections_closed ∧
      (handle_due_client sendRes now s c).stats.bytes_generated = s.stats.bytes_generated ∧
      (handle_due_client sendRes now s c).stats.started_time = s.stats.started_time ∧
      (∀ M, s.clients.length + 1 ≤ M → s.options.max_clients ≤ M →
        (handle_due_client sendRes now s c).clients.length ≤ M) := by
  unfold handle_due_client send_line
  match hsr : sendRes c.id with
  | .ok 0 =>
    obtain ⟨newcs, p2, b, heq, _hfresh, hbound⟩ := accept_spec now { s with stats := s.stats }
    refine ⟨newcs, ?_⟩
    simp only [hsr, heq]
    refine ⟨by simp, by trivial, by trivial, by trivial, by trivial, by trivial, by trivial, ?_⟩
    intro M hM hMax
    have := hbound M (by simpa using Nat.le_of_succ_le hM) (by simpa using hMax)
    simp at this ⊢
    omega
  | .ok (n + 1) =>
    refine ⟨[{ c with last_send_time := some now }], ?_⟩
    simp only [hsr]
    refine ⟨by trivial, by trivial, by trivial, by trivial, by trivial, by trivial, by trivial, ?_⟩
    intro M hM _hMax
    simpa using hM
  | .wouldBlock =>
    refine ⟨[c], ?_⟩
    simp only [hsr]
    refine ⟨by trivial, by trivial, by trivial, by trivial, by trivial, by trivial, by trivial, ?_⟩
    intro M hM _hMax
    simpa using hM
  | .err =>
    obtain ⟨newcs, p2, b, heq, _hfresh, hbound⟩ := accept_spec now { s with stats := s.stats }
    refine ⟨newcs, ?_⟩
    simp only [hsr, heq]
    refine ⟨by simp, by trivial, by trivial, by trivial, by trivial, by trivial, by trivial, ?_⟩
    intro M hM hMax
    have := hbound M (by simpa using Nat.le_of_succ_le hM) (by simpa using hMax)
    simp at this ⊢
    omega

/-! ### The wake-up scan: general shape lemma -/


theorem loop_spec (sendRes : Nat → SendOutcome) (randBytes : List Nat) (now : Instant) :
    ∀ (fuel : Nat) (s : ServerState) (generated : Bool) (log0 : List SendRecord)
      (s' : ServerState) (ret : Option Dur) (log : List SendRecord),
      wakeup_loop sendRes randBytes now fuel s generated log0 = .done s' ret log →
        s'.options = s.options ∧
        s'.stats.last_known_time = s.stats.last_known_time ∧
        s'.stats.connections_closed = s.stats.connections_closed ∧
        s'.stats.started_time = s.stats.started_time ∧
        (∃ diff, log = log0 ++ diff) ∧
        (ret = none → s'.clients = []) ∧
        (∀ d, ret = some d → ∃ c2 rest2 l, s'.clients = rest2 ++ [c2] ∧
          c2.last_send_time = some l ∧ now ≤ l + s.options.message_delay ∧
          d = l + s.options.message_delay - now) := by
  intro fuel
  induction fuel with
  | zero =>
    intro s generated log0 s' ret log h
    simp [wakeup_loop] at h
  | succ fuel ih =>
    intro s generated log0 s' ret log h
    rw [wakeup_loop] at h
    cases hc : s.clients with
    | nil =>
      rw [hc] at h
      simp only at h
      obtain ⟨hs, hret, hlog⟩ := WakeupResult.done.inj h
      subst hs hret hlog
      refine ⟨rfl, rfl, rfl, rfl, ⟨[], by simp⟩, fun _ => hc, ?_⟩
      intro d hd
      cases hd
    | cons c rest =>
      rw [hc] at h
      simp only at h
      cases hw : clientWait s.options.message_delay now c with
      | some w =>
        rw [hw] at h
        simp only at h
        obtain ⟨hs, hret, hlog⟩ := WakeupResult.done.inj h
        subst hs hret hlog
        refine ⟨rfl, rfl, rfl, rfl, ⟨[], by simp⟩, ?_, ?_⟩
        · intro hn; cases hn
        intro d hd
        obtain rfl : w = d := by cases hd; rfl
        cases hl : c.last_send_time with
        | none => simp [clientWait, hl] at hw
        | some last =>
          simp only [clientWait, hl] at hw
          by_cases hle : now ≤ last + s.options.message_delay
          · rw [if_pos hle] at hw
            obtain rfl : last + s.options.message_delay - now = w := by cases hw; rfl
            exact ⟨c, rest, last, rfl, hl, hle, rfl⟩
          · rw [if_neg hle] at hw; cases hw
      | none =>
        rw [hw] at h
        simp only at h
        set s1 := applyGeneration randBytes generated { s with clients := rest } with hs1
        obtain ⟨hopt, hlkt, hclosed, hstarted, ⟨diff, hlog⟩, hnone, hsome⟩ :=
          ih (handle_due_client sendRes now s1 c) true
            (log0 ++ [⟨c.id, s1.line_banner ++ s1.options.newline.get_data⟩]) s' ret log h
        obtain ⟨ext, _hext, hopt2, _hban2, hlkt2, hclosed2, _hgen2, hstarted2, _hlen2⟩ :=
          handle_due_spec sendRes now s1 c
        have hs1opt : s1.options = s.options := by
          rw [hs1]; unfold applyGeneration; split <;> rfl
        have hs1lkt : s1.stats.last_known_time = s.stats.last_known_time := by
          rw [hs1]; unfold applyGeneration; split <;> rfl
        have hs1closed : s1.stats.connections_closed = s.stats.connections_closed := by
          rw [hs1]; unfold applyGeneration; split <;> rfl
        have hs1started : s1.stats.started_time = s.stats.started_time := by
          rw [hs1]; unfold applyGeneration; split <;> rfl
        refine ⟨by rw [hopt, hopt2, hs1opt], by rw [hlkt, hlkt2, hs1lkt],
          by rw [hclosed, hclosed2, hs1closed], by rw [hstarted, hstarted2, hs1started],
          ⟨⟨c.id, s1.line_banner ++ s1.options.newline.get_data⟩ :: diff, by simp [hlog]⟩,
          hnone, ?_⟩
        intro d hd
        obtain ⟨c2, rest2, l, h1, h2, h3, h4⟩ := hsome d hd
        rw [hopt2, hs1opt] at h3 h4
        exact ⟨c2, rest2, l, h1, h2, h3, h4⟩

/-! ### Wake-up scan: length bound, stop point, banner generation -/


theorem loop_len (sendRes : Nat → SendOutcome) (randBytes : List Nat) (now : Instant) :
    ∀ (fuel : Nat) (s : ServerState) (generated : Bool) (log0 : List SendRecord)
      (s' : ServerState) (ret : Option Dur) (log : List SendRecord) (M : Nat),
      wakeup_loop sendRes randBytes now fuel s generated log0 = .done s' ret log →
      s.clients.length ≤ M → s.options.max_clients ≤ M →
      s'.clients.length ≤ M := by
  intro fuel
  induction fuel with
  | zero =>
    intro s generated log0 s' ret log M h
    simp [wakeup_loop] at h
  | succ fuel ih =>
    intro s generated log0 s' ret log M h hM hMax
    rw [wakeup_loop] at h
    cases hc : s.clients with
    | nil =>
      rw [hc] at h
      simp only at h
      obtain ⟨hs, _, _⟩ := WakeupResult.done.inj h
      subst hs
      exact hM
    | cons c rest =>
      rw [hc] at h
      simp only at h
      cases hw : clientWait s.options.message_delay now c with
      | some w =>
        rw [hw] at h
        simp only at h
        obtain ⟨hs, _, _⟩ := WakeupResult.done.inj h
        subst hs
        have : rest.length + 1 ≤ M := by
          have := hM
          rw [hc] at this
          simpa using this
        simpa using this
      | none =>
        rw [hw] at h
        simp only at h
        set s1 := applyGeneration randBytes generated { s with clients := rest } with hs1
        have hs1c : s1.clients = rest := by
          rw [hs1]; unfold applyGeneration; split <;> rfl
        have hs1opt : s1.options = s.options := by
          rw [hs1]; unfold applyGeneration; split <;> rfl
        obtain ⟨ext, hext, hopt2, _, _, _, _, _, hlen2⟩ := handle_due_spec sendRes now s1 c
        refine ih (handle_due_client sendRes now s1 c) true _ s' ret log M h ?_ ?_
        · apply hlen2
          · rw [hs1c]
            have := hM
            rw [hc] at this
            simpa using this
          · rw [hs1opt]
            exact hMax
        · rw [hopt2, hs1opt]
          exact hMax

theorem loop_stop (sendRes : Nat → SendOutcome) (randBytes : List Nat) (now : Instant) :
    ∀ (fuel : Nat) (s : ServerState) (generated : Bool) (log0 : List SendRecord)
      (s' : ServerState) (ret : Option Dur) (log : List SendRecord)
      (pre : List EndlesshClient) (c : EndlesshClient) (post : List EndlesshClient) (w : Dur),
      wakeup_loop sendRes randBytes now fuel s generated log0 = .done s' ret log →
      s.clients = pre ++ c :: post →
      (∀ x ∈ pre, clientWait s.options.message_delay now x = none) →
      clientWait s.options.message_delay now c = some w →
      ret = some w ∧ (∃ extra, s'.clients = post ++ extra ++ [c]) ∧
      (∀ x ∈ pre, ∃ r ∈ log, r.clientId = x.id) := by
  intro fuel
  induction fuel with
  | zero =>
    intro s generated log0 s' ret log pre c post w h
    simp [wakeup_loop] at h
  | succ fuel ih =>
    intro s generated log0 s' ret log pre c post w h hsplit hpre hcw
    rw [wakeup_loop] at h
    cases pre with
    | nil =>
      simp only [List.nil_append] at hsplit
      rw [hsplit] at h
      simp only at h
      rw [hcw] at h
      simp only at h
      obtain ⟨hs, hret, _⟩ := WakeupResult.done.inj h
      subst hs hret
      exact ⟨rfl, ⟨[], by simp⟩, by simp⟩
    | cons p pre2 =>
      simp only [List.cons_append] at hsplit
      rw [hsplit] at h
      simp only at h
      have hpw : clientWait s.options.message_delay now p = none := hpre p (by simp)
      rw [hpw] at h
      simp only at h
      set s1 := applyGeneration randBytes generated { s with clients := pre2 ++ c :: post } with hs1
      have hs1c : s1.clients = pre2 ++ c :: post := by
        rw [hs1]; unfold applyGeneration; split <;> rfl
      have hs1opt : s1.options = s.options := by
        rw [hs1]; unfold applyGeneration; split <;> rfl
      obtain ⟨ext, hext, hopt2, _, _, _, _, _, _⟩ := handle_due_spec sendRes now s1 p
      have hsplit2 : (handle_due_client sendRes now s1 p).clients = pre2 ++ c :: (post ++ ext) := by
        rw [hext, hs1c]
        simp
      have hdelay2 : (handle_due_client sendRes now s1 p).options.message_delay =
          s.options.message_delay := by rw [hopt2, hs1opt]
      obtain ⟨hret, ⟨extra, hcl⟩, hsends⟩ :=
        ih (handle_due_client sendRes now s1 p) true
          (log0 ++ [⟨p.id, s1.line_banner ++ s1.options.newline.get_data⟩]) s' ret log
          pre2 c (post ++ ext) w h hsplit2
          (by intro x hx; rw [hdelay2]; exact hpre x (by simp [hx]))
          (by rw [hdelay2]; exact hcw)
      refine ⟨hret, ⟨ext ++ extra, by rw [hcl]; simp⟩, ?_⟩
      intro x hx
      rcases List.mem_cons.mp hx with hxp | hx2
      · obtain ⟨_, _, _, _, ⟨diff, hlog⟩, _, _⟩ := loop_spec sendRes randBytes now fuel _ _ _ _ _ _ h
        refine ⟨⟨p.id, s1.line_banner ++ s1.options.newline.get_data⟩, ?_, by rw [hxp]⟩
        rw [hlog]
        simp
      · exact hsends x hx2

theorem loop_gen (sendRes : Nat → SendOutcome) (randBytes : List Nat) (now : Instant) :
    ∀ (fuel : Nat) (s : ServerState) (generated : Bool) (log0 : List SendRecord)
      (s' : ServerState) (ret : Option Dur) (log : List SendRecord),
      wakeup_loop sendRes randBytes now fuel s generated log0 = .done s' ret log →
      (generated = true →
        s'.stats.bytes_generated = s.stats.bytes_generated ∧
        ∃ diff, log = log0 ++ diff ∧
          ∀ r ∈ diff, r.payload = s.line_banner ++ s.options.newline.get_data) ∧
      (generated = false →
        (log = log0 ∧ s'.stats.bytes_generated = s.stats.bytes_generated) ∨
        (s'.stats.bytes_generated = s.stats.bytes_generated + s.options.banner_line_length ∧
          ∃ diff, log = log0 ++ diff ∧ diff ≠ [] ∧
            ∀ r ∈ diff, r.payload = randBytes ++ s.options.newline.get_data)) := by
  intro fuel
  induction fuel with
  | zero =>
    intro s generated log0 s' ret log h
    simp [wakeup_loop] at h
  | succ fuel ih =>
    intro s generated log0 s' ret log h
    rw [wakeup_loop] at h
    cases hc : s.clients with
    | nil =>
      rw [hc] at h
      simp only at h
      obtain ⟨hs, _, hlog⟩ := WakeupResult.done.inj h
      subst hs hlog
      exact ⟨fun _ => ⟨rfl, ⟨[], by simp⟩⟩, fun _ => Or.inl ⟨rfl, rfl⟩⟩
    | cons c rest =>
      rw [hc] at h
      simp only at h
      cases hw : clientWait s.options.message_delay now c with
      | some w =>
        rw [hw] at h
        simp only at h
        obtain ⟨hs, _, hlog⟩ := WakeupResult.done.inj h
        subst hs hlog
        exact ⟨fun _ => ⟨rfl, ⟨[], by simp⟩⟩, fun _ => Or.inl ⟨rfl, rfl⟩⟩
      | none =>
        rw [hw] at h
        simp only at h
        set s1 := applyGeneration randBytes generated { s with clients := rest } with hs1
        obtain ⟨ext, _, hopt2, hban2, _, _, hgen2, _, _⟩ := handle_due_spec sendRes now s1 c
        obtain ⟨htrue, _⟩ := ih (handle_due_client sendRes now s1 c) true
          (log0 ++ [⟨c.id, s1.line_banner ++ s1.options.newline.get_data⟩]) s' ret log h
        obtain ⟨hbytes, diff, hlog, hpay⟩ := htrue rfl
        cases generated with
        | true =>
          have hs1id : s1 = { s with clients := rest } := by
            rw [hs1]; unfold applyGeneration; simp
          refine ⟨?_, ?_⟩
          · intro _
            refine ⟨?_, ⟨⟨c.id, s.line_banner ++ s.options.newline.get_data⟩ :: diff, ?_, ?_⟩⟩
            · rw [hbytes, hgen2, hs1id]
            · rw [hlog, hs1id]
              simp
            · intro r hr
              rcases List.mem_cons.mp hr with hr1 | hr2
              · rw [hr1]
              · have := hpay r hr2
                rw [this, hban2, hopt2, hs1id]
          · intro hfalse; cases hfalse
        | false =>
          have hs1id : s1 =
              { s with
                clients := rest
                line_banner := randBytes
                stats := { s.stats with
                  bytes_generated := s.stats.bytes_generated + s.options.banner_line_length } } := by
            rw [hs1]; unfold applyGeneration; simp
          constructor
          · intro htrue2; cases htrue2
          intro _
          refine Or.inr ⟨?_, ?_⟩
          · rw [hbytes, hgen2, hs1id]
          · refine ⟨⟨c.id, randBytes ++ s.options.newline.get_data⟩ :: diff, ?_, by simp, ?_⟩
            · rw [hlog, hs1id]
              simp
            · intro r hr
              rcases List.mem_cons.mp hr with hr1 | hr2
              · rw [hr1]
              · have := hpay r hr2
                rw [this, hban2, hopt2, hs1id]

/-! ### Projection lemmas and claim theorems for the scheduler -/

theorem accept_fields (now : Instant) (s : ServerState) :
    (accept_new_connections now s).options = s.options ∧
    (accept_new_connections now s).stats.last_known_time = s.stats.last_known_time ∧
    (accept_new_connections now s).stats.connections_closed = s.stats.connections_closed ∧
    (accept_new_connections now s).stats.started_time = s.stats.started_time := by
  obtain ⟨newcs, p2, b, heq, _, _⟩ := accept_spec now s
  rw [heq]
  exact ⟨rfl, rfl, rfl, rfl⟩

theorem accept_len_bound (now : Instant) (s : ServerState)
    (h : s.clients.length ≤ s.options.max_clients) :
    (accept_new_connections now s).clients.length ≤ s.options.max_clients := by
  obtain ⟨newcs, p2, b, heq, _, hbound⟩ := accept_spec now s
  rw [heq]
  simpa using hbound s.options.max_clients h le_rfl

theorem handle_wakeup_done (sendRes : Nat → SendOutcome) (randBytes : List Nat) (now : Instant)
    (fuel : Nat) (s s' : ServerState) (ret : Option Dur) (log : List SendRecord)
    (h : handle_wakeup sendRes randBytes now fuel s = .done s' ret log) :
    ¬ now < s.stats.last_known_time ∧
    wakeup_loop sendRes randBytes now fuel
      { s with stats := { s.stats with last_known_time := now } } false [] =
      .done s' ret log := by
  unfold handle_wakeup at h
  by_cases hlt : now < s.stats.last_known_time
  · rw [if_pos hlt] at h
    cases h
  · rw [if_neg hlt] at h
    exact ⟨hlt, h⟩

/-- C3: on a completed wake-up, either the queue was drained without meeting a
not-yet-due client (return `None`, queue empty), or the scan stopped at the
first not-yet-due client: the return value is `some d` with
`d = (last_send_time + message_delay) - now` (non-negative: stated without
truncation by `now ≤ last_send_time + message_delay`); the stop client is
requeued with its fields unchanged, and every client that was behind it is
requeued untouched. -/
theorem C3_wakeup_return (sendRes : Nat → SendOutcome) (randBytes : List Nat) (now : Instant)
    (fuel : Nat) (s s' : ServerState) (ret : Option Dur) (log : List SendRecord)
    (h : handle_wakeup sendRes randBytes now fuel s = .done s' ret log) :
    (ret = none ↔ s'.clients = []) ∧
    (∀ d, ret = some d → ∃ c rest2 l, s'.clients = rest2 ++ [c] ∧
      c.last_send_time = some l ∧ now ≤ l + s.options.message_delay ∧
      d = l + s.options.message_delay - now) ∧
    (∀ pre c post w, s.clients = pre ++ c :: post →
      (∀ x ∈ pre, clientWait s.options.message_delay now x = none) →
      clientWait s.options.message_delay now c = some w →
      ret = some w ∧ ∃ extra, s'.clients = post ++ extra ++ [c]) := by
  obtain ⟨_, hloop⟩ := handle_wakeup_done sendRes randBytes now fuel s s' ret log h
  obtain ⟨_, _, _, _, _, hnone, hsome⟩ := loop_spec sendRes randBytes now fuel _ _ _ _ _ _ hloop
  refine ⟨⟨hnone, ?_⟩, hsome, ?_⟩
  · intro hcl
    cases hret : ret with
    | none => rfl
    | some d =>
      obtain ⟨c, rest2, l, hc, _, _, _⟩ := hsome d hret
      rw [hcl] at hc
      exact absurd hc.symm (by simp)
  · intro pre c post w hsplit hpre hcw
    obtain ⟨hret, hextra, _⟩ := loop_stop sendRes randBytes now fuel _ _ _ _ _ _ pre c post w
      hloop hsplit hpre hcw
    exact ⟨hret, hextra⟩

/-- Witness for C3 at a concrete input: one client last served at time 2,
wake-up at time 5 with delay 10 returns `some 7`. -/
theorem C3_wakeup_return_witness :
    ((some 7 : Option Dur) = none ↔
      ({ c3sBefore with
         stats := { c3sBefore.stats with last_known_time := 5 } } : ServerState).clients = []) ∧
    ((some 7 : Option Dur) = some 7 ∧ ∃ extra,
      ({ c3sBefore with
         stats := { c3sBefore.stats with last_known_time := 5 } } : ServerState).clients =
        [] ++ extra ++ [⟨1, 0, some 2⟩]) := by
  have h := C3_wakeup_return (fun _ => .ok 4) [65, 66, 67] 5 4 c3sBefore
    { c3sBefore with stats := { c3sBefore.stats with last_known_time := 5 } }
    (some 7) [] (by decide)
  exact ⟨h.1, h.2.2 [] ⟨1, 0, some 2⟩ [] 7 rfl (by simp) (by decide)⟩

/-- Counterexample to C1 as stated: at time 5, the queue holds a not-yet-due
client (last served at 2, delay 10) in front of a client that has never been
sent a line.  The wake-up stops at the front client: the send log is empty, so
the never-served client is not sent a banner line during the call and is still
never-served afterwards — its position in the queue does matter. -/
theorem C1_counterexample :
    (⟨2, 0, none⟩ : EndlesshClient) ∈ c1sBefore.clients ∧
    (⟨2, 0, none⟩ : EndlesshClient).last_send_time = none ∧
    handle_wakeup (fun _ => .ok 4) [65, 66, 67] 5 4 c1sBefore =
      .done c1sAfter (some 7) [] ∧
    (⟨2, 0, none⟩ : EndlesshClient) ∈ c1sAfter.clients := by
  refine ⟨by decide, rfl, by decide, by decide⟩

/-- C1 (amended): a client with `last_send_time = None` is always due (the
scan never stops at it), and every such client positioned before the first
not-yet-due client is sent a banner line during the call; a fresh client
behind the first not-yet-due client is not reached in that call. -/
theorem C1_fresh_served_when_reached (sendRes : Nat → SendOutcome) (randBytes : List Nat)
    (now : Instant) (fuel : Nat) (s s' : ServerState) (ret : Option Dur) (log : List SendRecord)
    (pre : List EndlesshClient) (c : EndlesshClient) (post : List EndlesshClient) (w : Dur)
    (h : handle_wakeup sendRes randBytes now fuel s = .done s' ret log)
    (hsplit : s.clients = pre ++ c :: post)
    (hpre : ∀ x ∈ pre, clientWait s.options.message_delay now x = none)
    (hcw : clientWait s.options.message_delay now c = some w) :
    (∀ x : EndlesshClient, x.last_send_time = none →
      clientWait s.options.message_delay now x = none) ∧
    (∀ x ∈ pre, x.last_send_time = none → ∃ r ∈ log, r.clientId = x.id) := by
  obtain ⟨_, hloop⟩ := handle_wakeup_done sendRes randBytes now fuel s s' ret log h
  obtain ⟨_, _, hsends⟩ := loop_stop sendRes randBytes now fuel _ _ _ _ _ _ pre c post w
    hloop hsplit hpre hcw
  refine ⟨?_, fun x hx _ => hsends x hx⟩
  intro x hx
  unfold clientWait
  rw [hx]

/-- Witness for the amended C1: a never-served client in front of a
not-yet-due client is sent a banner (its id appears in the send log). -/
theorem C1_fresh_served_when_reached_witness :
    ∃ r ∈ ([⟨1, [65, 66, 67, 10]⟩] : List SendRecord), r.clientId = 1 := by
  have h := C1_fresh_served_when_reached (fun _ => .ok 4) [65, 66, 67] 5 4 c1wBefore
    { c1wBefore with
      clients := [⟨1, 5, some 5⟩, ⟨2, 0, some 2⟩]
      stats := { c1wBefore.stats with
        last_known_time := 5, bytes_generated := 3, bytes_sent := 4 }
      line_banner := [65, 66, 67] }
    (some 7) [⟨1, [65, 66, 67, 10]⟩] [⟨1, 5, none⟩] ⟨2, 0, some 2⟩ [] 7
    (by decide) rfl (by decide) (by decide)
  exact h.2 ⟨1, 5, none⟩ (by decide) rfl

/-- C8: in one completed wake-up the banner is regenerated at most once, and
only when at least one due client was found: a call that attempts no send
leaves `bytes_generated` unchanged, a call that attempts at least one send
adds exactly `banner_line_length` to it once, and every send of the call
carries the identical banner payload (the fresh random bytes followed by the
line terminator). -/
theorem C8_banner_once (sendRes : Nat → SendOutcome) (randBytes : List Nat) (now : Instant)
    (fuel : Nat) (s s' : ServerState) (ret : Option Dur) (log : List SendRecord)
    (h : handle_wakeup sendRes randBytes now fuel s = .done s' ret log) :
    (log = [] → s'.stats.bytes_generated = s.stats.bytes_generated) ∧
    (log ≠ [] → s'.stats.bytes_generated =
      s.stats.bytes_generated + s.options.banner_line_length) ∧
    (∀ r ∈ log, r.payload = randBytes ++ s.options.newline.get_data) := by
  obtain ⟨_, hloop⟩ := handle_wakeup_done sendRes randBytes now fuel s s' ret log h
  obtain ⟨_, hfalse⟩ := loop_gen sendRes randBytes now fuel _ _ _ _ _ _ hloop
  rcases hfalse rfl with ⟨hlog, hbytes⟩ | ⟨hbytes, diff, hlog, hne, hpay⟩
  · refine ⟨fun _ => hbytes, fun hne => absurd hlog hne, ?_⟩
    intro r hr
    rw [hlog] at hr
    cases hr
  · rw [List.nil_append] at hlog
    subst hlog
    exact ⟨fun he => absurd he hne, fun _ => hbytes, hpay⟩

/-- Witness for C8: two never-served clients are both served in one wake-up,
`bytes_generated` grows by the banner length exactly once, and both send
records carry the same payload. -/
theorem C8_banner_once_witness :
    ({ c8sBefore with
       clients := [⟨2, 0, some 5⟩, ⟨1, 0, some 5⟩]
       line_banner := [65, 66, 67]
       stats := { c8sBefore.stats with
         last_known_time := 5, bytes_generated := 3, bytes_sent := 8
         trapped_time := 10 } } : ServerState).stats.bytes_generated =
      c8sBefore.stats.bytes_generated + c8sBefore.options.banner_line_length ∧
    ∀ r ∈ ([⟨1, [65, 66, 67, 10]⟩, ⟨2, [65, 66, 67, 10]⟩] : List SendRecord),
      r.payload = [65, 66, 67] ++ c8sBefore.options.newline.get_data := by
  have h := C8_banner_once (fun _ => .ok 4) [65, 66, 67] 5 4 c8sBefore
    { c8sBefore with
      clients := [⟨2, 0, some 5⟩, ⟨1, 0, some 5⟩]
      line_banner := [65, 66, 67]
      stats := { c8sBefore.stats with
        last_known_time := 5, bytes_generated := 3, bytes_sent := 8
        trapped_time := 10 } }
    (some 10) [⟨1, [65, 66, 67, 10]⟩, ⟨2, [65, 66, 67, 10]⟩] (by decide)
  exact ⟨h.2.1 (by decide), h.2.2⟩

/-- C4: the four outcomes of serving a due client.  A zero-byte write drops
the client and immediately runs the accept loop; a write of `n > 0` bytes adds
`n` to `bytes_sent`, adds `now - (last_send_time or connected_time)` to
`trapped_time`, sets `last_send_time = now` and requeues the client at the
back; a would-block requeues the client with state and stats unchanged; any
other I/O error drops the client with no retry and no fatal outcome (the
accept loop also runs). -/
theorem C4_send_outcomes (sendRes : Nat → SendOutcome) (now : Instant) (s : ServerState)
    (c : EndlesshClient) :
    (sendRes c.id = .ok 0 →
      handle_due_client sendRes now s c = accept_new_connections now s) ∧
    (∀ n, sendRes c.id = .ok (n + 1) →
      handle_due_client sendRes now s c =
        { s with
          stats := { s.stats with
            bytes_sent := s.stats.bytes_sent + (n + 1)
            trapped_time := s.stats.trapped_time +
              (now - (c.last_send_time.getD c.connected_time)) }
          clients := s.clients ++ [{ c with last_send_time := some now }] }) ∧
    (sendRes c.id = .wouldBlock →
      handle_due_client sendRes now s c = { s with clients := s.clients ++ [c] }) ∧
    (sendRes c.id = .err →
      handle_due_client sendRes now s c = accept_new_connections now s) := by
  refine ⟨?_, ?_, ?_, ?_⟩
  · intro h
    unfold handle_due_client send_line
    rw [h]
  · intro n h
    unfold handle_due_client send_line
    rw [h]
  · intro h
    unfold handle_due_client send_line
    rw [h]
  · intro h
    unfold handle_due_client send_line
    rw [h]

/-- Witness for C4: a zero-byte write leads straight to the accept loop. -/
theorem C4_send_outcomes_witness :
    handle_due_client (fun _ => .ok 0) 5 c3sBefore ⟨9, 1, none⟩ =
      accept_new_connections 5 c3sBefore :=
  (C4_send_outcomes (fun _ => .ok 0) 5 c3sBefore ⟨9, 1, none⟩).1 rfl

theorem try_handle_event_some (isL : Bool) (now : Instant) (s s2 : ServerState) (b : Bool)
    (h : try_handle_event isL now s = some (s2, b)) :
    ¬ now < s.stats.last_known_time ∧
    s2.options = s.options ∧
    s2.stats.last_known_time = now ∧
    s2.stats.connections_closed = s.stats.connections_closed ∧
    s2.stats.started_time = s.stats.started_time ∧
    (s.clients.length ≤ s.options.max_clients →
      s2.clients.length ≤ s2.options.max_clients) := by
  unfold try_handle_event at h
  by_cases hlt : now < s.stats.last_known_time
  · rw [if_pos hlt] at h
    cases h
  · rw [if_neg hlt] at h
    simp only at h
    cases isL with
    | true =>
      rw [if_pos rfl] at h
      obtain ⟨h1, _⟩ := Prod.mk.injEq .. ▸ (Option.some.inj h)
      subst h1
      obtain ⟨hopt, hlkt, hclosed, hstarted⟩ := accept_fields now
        { s with
          listener_accept_available := true
          stats := { s.stats with last_known_time := now } }
      refine ⟨hlt, hopt, hlkt, hclosed, hstarted, ?_⟩
      intro hlen
      have := accept_len_bound now
        { s with
          listener_accept_available := true
          stats := { s.stats with last_known_time := now } } hlen
      rw [hopt]
      exact this
    | false =>
      rw [if_neg (by simp)] at h
      obtain ⟨h1, _⟩ := Prod.mk.injEq .. ▸ (Option.some.inj h)
      subst h1
      exact ⟨hlt, rfl, rfl, rfl, rfl, fun hl => hl⟩

theorem stepOp_inv (s : ServerState) (op : EOp) (s2 : ServerState)
    (h : stepOp s op = some s2) :
    s2.options = s.options ∧
    s.stats.last_known_time ≤ s2.stats.last_known_time ∧
    s2.stats.connections_closed = s.stats.connections_closed ∧
    (s.clients.length ≤ s.options.max_clients →
      s2.clients.length ≤ s2.options.max_clients) := by
  cases op with
  | arrive conns =>
    obtain rfl := Option.some.inj h
    exact ⟨rfl, le_rfl, rfl, fun hl => hl⟩
  | event isL now =>
    simp only [stepOp] at h
    cases he : try_handle_event isL now s with
    | none => rw [he] at h; cases h
    | some p =>
      rw [he] at h
      obtain rfl : p.1 = s2 := by
        cases p
        exact Option.some.inj h
      obtain ⟨hlt, hopt, hlkt, hclosed, _, hlen⟩ :=
        try_handle_event_some isL now s p.1 p.2 (by rw [he])
      refine ⟨hopt, ?_, hclosed, hlen⟩
      rw [hlkt]
      exact Nat.le_of_not_lt hlt
  | wakeup sendRes randBytes fuel now =>
    simp only [stepOp] at h
    cases hw : handle_wakeup sendRes randBytes now fuel s with
    | fatal => rw [hw] at h; cases h
    | incomplete => rw [hw] at h; cases h
    | done sd ret log =>
      rw [hw] at h
      obtain rfl := Option.some.inj h
      obtain ⟨hlt, hloop⟩ := handle_wakeup_done sendRes randBytes now fuel s sd ret log hw
      obtain ⟨hopt, hlkt, hclosed, _, _, _, _⟩ :=
        loop_spec sendRes randBytes now fuel _ _ _ _ _ _ hloop
      refine ⟨hopt, ?_, hclosed, ?_⟩
      · rw [hlkt]
        exact Nat.le_of_not_lt hlt
      intro hlen
      rw [hopt]
      exact loop_len sendRes randBytes now fuel _ _ _ _ _ _ s.options.max_clients hloop
        hlen le_rfl

theorem runOps_inv (ops : List EOp) : ∀ (s s2 : ServerState), runOps s ops = some s2 →
    s2.options = s.options ∧
    s.stats.last_known_time ≤ s2.stats.last_known_time ∧
    s2.stats.connections_closed = s.stats.connections_closed ∧
    (s.clients.length ≤ s.options.max_clients →
      s2.clients.length ≤ s2.options.max_clients) := by
  induction ops with
  | nil =>
    intro s s2 h
    obtain rfl := Option.some.inj h
    exact ⟨rfl, le_rfl, rfl, fun hl => hl⟩
  | cons op rest ih =>
    intro s s2 h
    unfold runOps at h
    cases hst : stepOp s op with
    | none => rw [hst] at h; cases h
    | some s1 =>
      rw [hst] at h
      obtain ⟨hopt1, hlkt1, hclosed1, hlen1⟩ := stepOp_inv s op s1 hst
      obtain ⟨hopt2, hlkt2, hclosed2, hlen2⟩ := ih s1 s2 h
      refine ⟨by rw [hopt2, hopt1], le_trans hlkt1 hlkt2, by rw [hclosed2, hclosed1], ?_⟩
      intro hl
      exact hlen2 (by rw [hopt1] at hlen1 ⊢; exact hlen1 hl)

/-- C9: `last_known_time` never regresses.  A call whose `now` is earlier than
the stored `last_known_time` fails the assertion (modelled as `none` /
`.fatal`) instead of recording the regressed time; any completed call sets
`last_known_time = now ≥` the previous value, and along any successful
operation sequence `last_known_time` is non-decreasing. -/
theorem C9_time_never_regresses :
    (∀ (isL : Bool) (now : Instant) (s : ServerState),
      now < s.stats.last_known_time → try_handle_event isL now s = none) ∧
    (∀ (sendRes : Nat → SendOutcome) (randBytes : List Nat) (now : Instant) (fuel : Nat)
      (s : ServerState), now < s.stats.last_known_time →
      handle_wakeup sendRes randBytes now fuel s = .fatal) ∧
    (∀ (isL : Bool) (now : Instant) (s s2 : ServerState) (b : Bool),
      try_handle_event isL now s = some (s2, b) →
      s.stats.last_known_time ≤ s2.stats.last_known_time ∧
      s2.stats.last_known_time = now) ∧
    (∀ (sendRes : Nat → SendOutcome) (randBytes : List Nat) (now : Instant) (fuel : Nat)
      (s s2 : ServerState) (ret : Option Dur) (log : List SendRecord),
      handle_wakeup sendRes randBytes now fuel s = .done s2 ret log →
      s.stats.last_known_time ≤ s2.stats.last_known_time ∧
      s2.stats.last_known_time = now) ∧
    (∀ (s : ServerState) (op : EOp) (s2 : ServerState),
      stepOp s op = some s2 →
      s.stats.last_known_time ≤ s2.stats.last_known_time) := by
  refine ⟨?_, ?_, ?_, ?_, ?_⟩
  · intro isL now s hlt
    unfold try_handle_event
    rw [if_pos hlt]
  · intro sendRes randBytes now fuel s hlt
    unfold handle_wakeup
    rw [if_pos hlt]
  · intro isL now s s2 b h
    obtain ⟨hlt, _, hlkt, _, _, _⟩ := try_handle_event_some isL now s s2 b h
    exact ⟨by rw [hlkt]; exact Nat.le_of_not_lt hlt, hlkt⟩
  · intro sendRes randBytes now fuel s s2 ret log h
    obtain ⟨hlt, hloop⟩ := handle_wakeup_done sendRes randBytes now fuel s s2 ret log h
    obtain ⟨_, hlkt, _, _, _, _, _⟩ := loop_spec sendRes randBytes now fuel _ _ _ _ _ _ hloop
    refine ⟨?_, hlkt⟩
    rw [hlkt]
    exact Nat.le_of_not_lt hlt
  · intro s op s2 h
    exact (stepOp_inv s op s2 h).2.1

/-- Witness for C9: handing the scheduler a time earlier than the recorded
`last_known_time` is fatal, and a successful event advances the clock. -/
theorem C9_time_never_regresses_witness :
    try_handle_event true 3 c3sAfterTime = none ∧
    handle_wakeup (fun _ => .ok 1) [65, 66, 67] 3 4 c3sAfterTime = .fatal := by
  refine ⟨?_, ?_⟩
  · exact C9_time_never_regresses.1 true 3 c3sAfterTime (by decide)
  · exact C9_time_never_regresses.2.1 (fun _ => .ok 1) [65, 66, 67] 3 4 c3sAfterTime (by decide)

/-- C6: starting from `create`, along any successful sequence of arrivals,
readiness events and wake-ups the queue never exceeds `max_clients`; and when
the queue is not below `max_clients` the accept loop leaves the whole state —
in particular the pending backlog — untouched (accept is deferred, nothing is
accepted-and-rejected). -/
theorem C6_queue_bounded :
    (∀ (opts : EndlesshOptions) (now0 : Instant) (s0 : ServerState) (ops : List EOp)
      (s2 : ServerState),
      ServerState.create opts now0 = some s0 →
      runOps s0 ops = some s2 →
      s2.clients.length ≤ opts.max_clients) ∧
    (∀ (now : Instant) (s : ServerState),
      ¬ s.clients.length < s.options.max_clients →
      accept_new_connections now s = s) := by
  refine ⟨?_, ?_⟩
  · intro opts now0 s0 ops s2 hc hr
    unfold ServerState.create at hc
    by_cases hle : opts.banner_line_length + opts.newline.get_data.length ≤ SSH_LINE_BUFFER_SIZE
    · rw [if_pos hle] at hc
      obtain rfl := Option.some.inj hc
      obtain ⟨hopt, _, _, hlen⟩ := runOps_inv ops _ s2 hr
      have := hlen (by simp)
      rw [hopt] at this
      exact this
    · rw [if_neg hle] at hc
      cases hc
  · intro now s hfull
    exact accept_eq_stop now s (fun hand => hfull hand.2)

/-- Witness for C6: a concrete run — create with `max_clients = 2`, three
arrivals, one accept event, a wake-up — never exceeds two queued clients; and
the accept loop is the identity on a full queue. -/
theorem C6_queue_bounded_witness :
    c6RunResult.clients.length ≤ 2 ∧ accept_new_connections 7 c6FullState = c6FullState := by
  constructor
  · exact C6_queue_bounded.1 ⟨2, 3, 10, NewLine.LF⟩ 0 c6CreateState
      [EOp.arrive [11, 12, 13], EOp.event true 4, EOp.wakeup (fun _ => .ok 4) [65, 66, 67] 8 5]
      c6RunResult (by decide) (by decide)
  · exact C6_queue_bounded.2 7 c6FullState (by decide)

theorem closed_zero_line (x : String) :
    "endlessh_ssh_connections_closed: " ++ (toString (0 : Nat) ++ ("\n" ++ x)) =
    "endlessh_ssh_connections_closed: 0\n" ++ x := by
  rw [← String.append_assoc, ← String.append_assoc]
  have hkey : "endlessh_ssh_connections_closed: " ++ toString (0 : Nat) ++ "\n" =
      "endlessh_ssh_connections_closed: 0\n" := by decide
  rw [hkey]

/-- C10: no scheduler operation ever increments `connections_closed`: in every
state reachable from `create` it is `0`, and the rendered metrics body
contains the literal line `endlessh_ssh_connections_closed: 0` even though
`connections_opened` may have grown and clients may have been dropped. -/
theorem C10_connections_closed_zero (opts : EndlesshOptions) (now0 : Instant)
    (s0 : ServerState) (ops : List EOp) (s2 : ServerState)
    (hc : ServerState.create opts now0 = some s0)
    (hr : runOps s0 ops = some s2) :
    s2.stats.connections_closed = 0 ∧
    statsDisplay s2.stats =
      "endlessh_ssh_uptime_seconds: " ++
        toString (Dur.asSecs (s2.stats.last_known_time - s2.stats.started_time)) ++ "\n" ++
      "endlessh_ssh_connections_opened: " ++ toString s2.stats.connections_opened ++ "\n" ++
      "endlessh_ssh_connections_closed: 0\n" ++
      "endlessh_ssh_bytes_generated: " ++ toString s2.stats.bytes_generated ++ "\n" ++
      "endlessh_ssh_bytes_sent: " ++ toString s2.stats.bytes_sent ++ "\n" ++
      "endlessh_ssh_trapped_time_seconds: " ++ toString (Dur.asSecs s2.stats.trapped_time) ++ "\n" := by
  have hzero : s2.stats.connections_closed = 0 := by
    unfold ServerState.create at hc
    by_cases hle : opts.banner_line_length + opts.newline.get_data.length ≤ SSH_LINE_BUFFER_SIZE
    · rw [if_pos hle] at hc
      obtain rfl := Option.some.inj hc
      obtain ⟨_, _, hclosed, _⟩ := runOps_inv ops _ s2 hr
      exact hclosed
    · rw [if_neg hle] at hc
      cases hc
  refine ⟨hzero, ?_⟩
  unfold statsDisplay
  rw [hzero]
  simp only [String.append_assoc, closed_zero_line]

/-- Witness for C10 on a concrete run: after two accepted connections and a
wake-up that served both, `connections_closed` is still zero and the rendered
body says so. -/
theorem C10_connections_closed_zero_witness :
    c6RunResult.stats.connections_closed = 0 ∧
    statsDisplay c6RunResult.stats =
      "endlessh_ssh_uptime_seconds: " ++
        toString (Dur.asSecs (c6RunResult.stats.last_known_time -
          c6RunResult.stats.started_time)) ++ "\n" ++
      "endlessh_ssh_connections_opened: " ++ toString c6RunResult.stats.connections_opened ++ "\n" ++
      "endlessh_ssh_connections_closed: 0\n" ++
      "endlessh_ssh_bytes_generated: " ++ toString c6RunResult.stats.bytes_generated ++ "\n" ++
      "endlessh_ssh_bytes_sent: " ++ toString c6RunResult.stats.bytes_sent ++ "\n" ++
      "endlessh_ssh_trapped_time_seconds: " ++
        toString (Dur.asSecs c6RunResult.stats.trapped_time) ++ "\n" :=
  C10_connections_closed_zero ⟨2, 3, 10, NewLine.LF⟩ 0 c6CreateState
    [EOp.arrive [11, 12, 13], EOp.event true 4, EOp.wakeup (fun _ => .ok 4) [65, 66, 67] 8 5]
    c6RunResult (by decide) (by decide)

namespace Metrics

/-! ### Metrics responder: claim theorems -/

/-- C5: a completely parsed head is answered by exactly one of three
responses: `GET /metrics` gets `200 OK` with the openmetrics `Content-Type`
header, a `Content-Length` equal to the body length, and a body of six lines
`endlessh_ssh_<metric>: <value>` ending in a newline each; any other method
on `/metrics` gets `405 Method Not Allowed` with an empty body; any other
path gets `404 Not Found` with an empty body. -/
theorem C5_dispatch_and_rendering (st : EndlesshStats) :
    (routeRequest (some "GET") (some "/metrics") (statsDisplay st) =
      "HTTP/1.1 200 OK\r\n" ++
      "Content-Type: application/openmetrics-text; version=1.0.0; charset=utf-8\r\n" ++
      "Content-Length: " ++ toString (statsDisplay st).length ++ "\r\n\r\n" ++
      statsDisplay st) ∧
    (statsDisplay st =
      "endlessh_ssh_uptime_seconds: " ++
        toString ((st.last_known_time - st.started_time) / 1000000000) ++ "\n" ++
      "endlessh_ssh_connections_opened: " ++ toString st.connections_opened ++ "\n" ++
      "endlessh_ssh_connections_closed: " ++ toString st.connections_closed ++ "\n" ++
      "endlessh_ssh_bytes_generated: " ++ toString st.bytes_generated ++ "\n" ++
      "endlessh_ssh_bytes_sent: " ++ toString st.bytes_sent ++ "\n" ++
      "endlessh_ssh_trapped_time_seconds: " ++
        toString (st.trapped_time / 1000000000) ++ "\n") ∧
    (∀ m, m ≠ some "GET" →
      routeRequest m (some "/metrics") (statsDisplay st) =
        "HTTP/1.1 405 Method Not Allowed\r\n\r\n") ∧
    (∀ m p, p ≠ some "/metrics" →
      routeRequest m p (statsDisplay st) = "HTTP/1.1 404 Not Found\r\n\r\n") ∧
    (∀ (buf body2 : String) (c : HttpClient) (m p : Option String),
      parseHead buf = .completeHead m p →
      handle_head buf body2 c =
        (some { c with
          connection_status := .writingResponse (routeRequest m p body2).toList }, [])) := by
  refine ⟨?_, ?_, ?_, ?_, ?_⟩
  · rfl
  · rfl
  · intro m hm
    unfold routeRequest
    rw [if_pos rfl, if_neg hm]
    rfl
  · intro m p hp
    unfold routeRequest
    rw [if_neg hp]
    rfl
  · intro buf body2 c m p hparse
    unfold handle_head
    rw [hparse]

set_option maxRecDepth 10000 in
/-- Witness for C5: `POST /metrics` is 405 and `GET /other` is 404 on a
concrete stats sample. -/
theorem C5_dispatch_and_rendering_witness :
    routeRequest (some "POST") (some "/metrics") (statsDisplay c2Stats) =
      "HTTP/1.1 405 Method Not Allowed\r\n\r\n" ∧
    routeRequest (some "GET") (some "/other") (statsDisplay c2Stats) =
      "HTTP/1.1 404 Not Found\r\n\r\n" := by
  have h := C5_dispatch_and_rendering c2Stats
  exact ⟨h.2.2.1 (some "POST") (by simp), h.2.2.2.1 (some "GET") (some "/other") (by simp)⟩

set_option maxRecDepth 40000 in
/-- C2 (code-bug evaluation): the same complete `GET /metrics` head, split
across two partial reads, is served in full when the first response write
succeeds, but when the first write attempt would-blocks the generic
`io::copy` from the `Box<dyn Read>` source has already consumed the whole
response from the source, so the retry finds the source exhausted, closes
the connection, and the client receives nothing at all — not the bytes of
the uninterrupted case. -/
theorem C2_write_interruption_loses_bytes :
    runClient (statsDisplay c2Stats) (some ⟨0, .readingRequest ""⟩)
      [⟨"GET /metr", .wouldBlock, []⟩,
       ⟨"ics HTTP/1.1\r\n\r\n", .wouldBlock, []⟩,
       ⟨"", .wouldBlock, [.ok 10000]⟩] =
      (none, (generate_http_response (statsDisplay c2Stats)).toList) ∧
    runClient (statsDisplay c2Stats) (some ⟨0, .readingRequest ""⟩)
      [⟨"GET /metr", .wouldBlock, []⟩,
       ⟨"ics HTTP/1.1\r\n\r\n", .wouldBlock, []⟩,
       ⟨"", .wouldBlock, [.wouldBlock]⟩,
       ⟨"", .wouldBlock, [.ok 10000]⟩] =
      (none, []) ∧
    (generate_http_response (statsDisplay c2Stats)).toList ≠ [] := by
  refine ⟨by decide, by decide, by decide⟩

theorem m_accept_tokens (now : Instant) :
    ∀ (fuel : Nat) (ms : MetricServer),
      (tokensOf (m_accept_fuel now fuel ms)).Perm (tokensOf ms) := by
  intro fuel
  induction fuel with
  | zero => intro ms; exact List.Perm.refl _
  | succ fuel ih =>
    intro ms
    rw [m_accept_fuel]
    by_cases hg : ms.listener_accept_available = true ∧ ¬ ms.available_connections.isEmpty
    · rw [if_pos hg]
      cases hp : ms.pending with
      | zero => exact List.Perm.refl _
      | succ np =>
        cases ha : ms.available_connections with
        | nil => exact List.Perm.refl _
        | cons t ts =>
          refine (ih _).trans ?_
          unfold tokensOf
          simp only [ha, List.map_cons]
          exact (List.perm_middle).trans (List.Perm.refl _)
    · rw [if_neg hg]

theorem removeToken_some_perm (t : Nat) :
    ∀ (l : List (Nat × HttpClient)) (c : HttpClient) (l2 : List (Nat × HttpClient)),
      removeToken t l = (some c, l2) →
      (l.map Prod.fst).Perm (t :: l2.map Prod.fst) := by
  intro l
  induction l with
  | nil =>
    intro c l2 h
    simp [removeToken] at h
  | cons kc rest ih =>
    intro c l2 h
    obtain ⟨k, cl⟩ := kc
    simp only [removeToken] at h
    by_cases hk : k = t
    · rw [if_pos hk] at h
      obtain ⟨h1, h2⟩ := Prod.mk.injEq .. ▸ h
      subst hk h2
      simp
    · rw [if_neg hk] at h
      cases hrt : removeToken t rest with
      | mk r rest2 =>
        rw [hrt] at h
        simp only at h
        obtain ⟨h1, h2⟩ := Prod.mk.injEq .. ▸ h
        subst h2
        have hperm := ih c rest2 (by rw [hrt, h1])
        simp only [List.map_cons]
        exact (hperm.cons k).trans (List.Perm.swap t k _)

theorem mstep_tokens (ms : MetricServer) (op : MOp) :
    (tokensOf (mstep ms op)).Perm (tokensOf ms) := by
  cases op with
  | marrive n => exact List.Perm.refl _
  | mevent now ev body =>
    cases ev with
    | listener => exact m_accept_tokens now _ _
    | client t io =>
      simp only [mstep, m_try_handle_event]
      cases hrt : removeToken t ms.current_connections with
      | mk r current2 =>
        cases r with
        | none => exact List.Perm.refl _
        | some cl =>
          simp only
          have hperm := removeToken_some_perm t ms.current_connections cl current2 hrt
          cases hcl : handle_client io body cl with
          | mk c2 sent =>
            cases c2 with
            | some cl2 =>
              refine (m_accept_tokens now _ _).trans ?_
              unfold tokensOf
              simp only [List.map_cons]
              exact List.Perm.append_left ms.available_connections hperm.symm
            | none =>
              refine (m_accept_tokens now _ _).trans ?_
              unfold tokensOf
              simp only [List.append_assoc, List.singleton_append]
              exact List.Perm.append_left ms.available_connections hperm.symm

theorem mrun_tokens (ops : List MOp) :
    ∀ (ms : MetricServer), (tokensOf (mrun ms ops)).Perm (tokensOf ms) := by
  induction ops with
  | nil => intro ms; exact List.Perm.refl _
  | cons op rest ih =>
    intro ms
    exact (ih (mstep ms op)).trans (mstep_tokens ms op)

/-- C7: starting from `create` with tokens `lo, …, lo+n-1`, after any
sequence of arrivals and events every token of the range is either in the
available pool or bound to exactly one live client — one place in total,
never both, never two clients — and no token outside the range ever appears;
when every token is bound the accept loop is the identity (accepting is
deferred until a client finishes and its token is pushed back). -/
theorem C7_token_pool (lo n : Nat) (ops : List MOp) :
    (∀ t, t ∈ List.range' lo n →
      (mrun (MetricServer.create lo n) ops).available_connections.count t +
      ((mrun (MetricServer.create lo n) ops).current_connections.map Prod.fst).count t = 1) ∧
    (∀ t, t ∉ List.range' lo n →
      (mrun (MetricServer.create lo n) ops).available_connections.count t +
      ((mrun (MetricServer.create lo n) ops).current_connections.map Prod.fst).count t = 0) ∧
    (∀ (now : Instant) (ms : MetricServer), ms.available_connections = [] →
      try_accept_new_connections now ms = ms) := by
  have hperm : (tokensOf (mrun (MetricServer.create lo n) ops)).Perm (List.range' lo n) := by
    refine (mrun_tokens ops _).trans ?_
    unfold tokensOf MetricServer.create
    simp
  refine ⟨?_, ?_, ?_⟩
  · intro t ht
    have hcount := hperm.count_eq t
    rw [tokensOf, List.count_append] at hcount
    rw [hcount]
    exact List.count_eq_one_of_mem (List.nodup_range' lo n) ht
  · intro t ht
    have hcount := hperm.count_eq t
    rw [tokensOf, List.count_append] at hcount
    rw [hcount]
    exact List.count_eq_zero_of_not_mem ht
  · intro now ms h
    unfold try_accept_new_connections
    rw [m_accept_fuel]
    rw [if_neg (by simp [h])]

/-- Witness for C7 on a concrete run — two tokens, three arrivals (one
deferred while full), one finished client whose token is immediately reused:
token 3 is still owned exactly once. -/
theorem C7_token_pool_witness :
    (mrun (MetricServer.create 3 2)
      [MOp.marrive 3, MOp.mevent 0 MEvent.listener "",
       MOp.mevent 1 (MEvent.client 3 ⟨"", ReadEnd.eof, []⟩) ""]).available_connections.count 3 +
    ((mrun (MetricServer.create 3 2)
      [MOp.marrive 3, MOp.mevent 0 MEvent.listener "",
       MOp.mevent 1 (MEvent.client 3 ⟨"", ReadEnd.eof, []⟩) ""]).current_connections.map
        Prod.fst).count 3 = 1 :=
  (C7_token_pool 3 2
    [MOp.marrive 3, MOp.mevent 0 MEvent.listener "",
     MOp.mevent 1 (MEvent.client 3 ⟨"", ReadEnd.eof, []⟩) ""]).1 3 (by decide)

end Metrics

end EndlesshRs
